import Mathlib

/-!
A shallow embedding of `src/net/controller/src/server.rs` (the per-connection
scheduling and protocol engine of the controller).

Modelling conventions:
* `f64` quantities (priorities, energies, time costs) are modelled as `ℚ`;
  the source only adds, subtracts and multiplies them, so the arithmetic is
  exact in both worlds.
* The two hash maps (`m.permuters`, `server_state.jobs`) and the slotmap of
  servers are modelled as association lists; list order stands for the
  (arbitrary) iteration order of the map.
* Each job's result sink (`perm.send_result`) is modelled as a list of
  delivered results appended to the `Permuter` record; the in-flight
  semaphore is modelled as a counter of `release` calls.
* The `choose_work` loop body is `chooseWorkStep` (one pass under the two
  locks); `chooseWork` iterates it with explicit fuel, `none` standing for a
  suspension that nothing in the modelled closed system can wake.
* The reader loop body is `serverReadStep`, acting on an explicit list of
  inbound transport frames; the writer loop `serverWrite` consumes a count of
  available readiness pulses.
-/

set_option linter.unusedVariables false

abbrev PermuterId := Nat

abbrev UserId := String

abbrev Frame := List Nat

/-- `TIME_COST_MS_GUESS` from server.rs: the fixed per-unit cost estimate. -/
def TIME_COST_MS_GUESS : ℚ := 100

/-- One work unit (`PermuterWork { seed }`). -/
structure PermuterWork where
  seed : Nat
deriving DecidableEq

/-- The payload blobs of a permuter (`PermuterData`), as used by `send_work`. -/
structure PermuterData where
  compressedSource : Frame
  compressedTargetOBin : Frame
deriving DecidableEq

/-- `ServerUpdate`: the update kinds a worker can report. -/
inductive ServerUpdate where
  | initDone
  | initFailed
  | result (hasSource : Bool) (compressedSource : Option Frame)
  | disconnect
deriving DecidableEq

/-- `PermuterResult`: what gets delivered to a permuter's result sink. -/
inductive PermuterResult where
  | needWork
  | result (whoId : UserId) (whoName : String) (update : ServerUpdate)
deriving DecidableEq

/-- A registry permuter (`Permuter` in the global `m.permuters` map), with its
result sink modelled as the list of delivered results and its semaphore as a
counter of release calls. -/
structure Permuter where
  clientId : UserId
  clientName : String
  data : PermuterData
  stale : Bool
  priority : ℚ
  energyAdd : ℚ
  workQueue : List PermuterWork
  semReleased : Nat
  results : List PermuterResult
deriving DecidableEq

/-- `ConnectedServer`: the global registration of one worker connection. -/
structure ConnectedServer where
  minPriority : ℚ
  numCores : Nat
deriving DecidableEq

/-- The global mutable registry state (`m`): permuter map and server map. -/
structure MutableState where
  permuters : List (PermuterId × Permuter)
  servers : List (Nat × ConnectedServer)
deriving DecidableEq

/-- `JobState` from server.rs. -/
inductive JobState where
  | loading
  | loaded
  | failed
deriving DecidableEq

/-- `Job` from server.rs: per-connection job record. -/
structure Job where
  state : JobState
  energy : ℚ
deriving DecidableEq

/-- `ServerState` from server.rs: one connection's private state. -/
structure ServerState where
  minPriority : ℚ
  jobs : List (PermuterId × Job)
deriving DecidableEq

/-- Association-list lookup (first entry with the given key), standing for
`HashMap::get`. -/
def alookup {α : Type} : List (Nat × α) → Nat → Option α
  | [], _ => none
  | (k, v) :: rest, k2 => if k = k2 then some v else alookup rest k2

/-- Association-list insert, standing for `HashMap::insert` (replaces the
existing binding, otherwise appends). -/
def ainsert {α : Type} : List (Nat × α) → Nat → α → List (Nat × α)
  | [], k, v => [(k, v)]
  | (k2, v2) :: rest, k, v =>
    if k2 = k then (k, v) :: rest else (k2, v2) :: ainsert rest k v

/-- Association-list removal of the entry with the given key, standing for
`HashMap::remove`. -/
def aremove {α : Type} : List (Nat × α) → Nat → List (Nat × α)
  | [], _ => []
  | (k2, v2) :: rest, k => if k2 = k then rest else (k2, v2) :: aremove rest k

/-- In-place update of the value bound to a key (`HashMap::get_mut` followed by
mutation through the reference): every other entry is untouched. -/
def aupdate {α : Type} (l : List (Nat × α)) (k : Nat) (f : α → α) : List (Nat × α) :=
  l.map fun e => if e.1 = k then (e.1, f e.2) else e

/-- `ToSend` from server.rs: a dispatch decision. -/
inductive ToSend where
  | work (w : PermuterWork)
  | add (clientId : UserId) (clientName : String) (data : PermuterData)
  | remove
deriving DecidableEq

/-- Outcome of one pass of the `choose_work` loop body: either a dispatch is
returned, or the loop retries (with `wait = true` when it first suspends on
the new-work notification, `wait = false` for the immediate retry after
marking a permuter stale). -/
inductive StepResult where
  | done (m : MutableState) (ss : ServerState) (pid : PermuterId) (ts : ToSend)
  | retry (wait : Bool) (m : MutableState) (ss : ServerState)
deriving DecidableEq

/-- The admission search of `choose_work`: the first registry permuter with no
`ConnectionJob` on this connection (`m.permuters.iter().find(...)`). -/
def findNew : List (PermuterId × Permuter) → List (PermuterId × Job) → Option (PermuterId × Permuter)
  | [], _ => none
  | (pid, perm) :: rest, jobs =>
    if (alookup jobs pid).isNone then some (pid, perm) else findNew rest jobs

/-- `best.is_none() || job.energy < best_cost` from the selection scan. -/
def bestBeats (best : Option (PermuterId × ℚ)) (e : ℚ) : Bool :=
  match best with
  | none => true
  | some b => decide (e < b.2)

/-- Result of the scan over existing `ConnectionJob`s in `choose_work`:
either some job's registry entry has vanished (→ remove it), or the scan
completes with the best (minimum-energy eligible) candidate, if any. -/
inductive ScanResult where
  | reap (pid : PermuterId)
  | best (b : Option (PermuterId × ℚ))
deriving DecidableEq

/-- The scan over `server_state.jobs.iter_mut()` in `choose_work`: on the
first job whose permuter is gone from the registry, stop and reap it;
otherwise accumulate the minimum-energy job that is Loaded, non-stale and of
priority ≥ the connection threshold. The accumulator carries the candidate's
id and its energy (`best_cost`). -/
def scanJobs (perms : List (PermuterId × Permuter)) (minP : ℚ) :
    List (PermuterId × Job) → Option (PermuterId × ℚ) → ScanResult
  | [], best => .best best
  | (pid, job) :: rest, best =>
    match alookup perms pid with
    | none => .reap pid
    | some perm =>
      if job.state = .loaded ∧ perm.stale = false ∧ minP ≤ perm.priority ∧
          bestBeats best job.energy then
        scanJobs perms minP rest (some (pid, job.energy))
      else
        scanJobs perms minP rest best

/-- The mutation applied to the selected permuter when a unit is popped:
`work_queue.pop_front()` plus `semaphore.release()`. -/
def popPerm (p : Permuter) : Permuter :=
  { p with workQueue := p.workQueue.tail, semReleased := p.semReleased + 1 }

/-- The mutation applied to the selected permuter when its queue is empty:
`send_result(NeedWork)` plus `stale = true`. -/
def needWorkPerm (p : Permuter) : Permuter :=
  { p with results := p.results ++ [.needWork], stale := true }

/-- The energy debit and renormalization of `choose_work`: the selected job
gains `add` (= `energy_add * TIME_COST_MS_GUESS`), then the selected job's
pre-debit energy `e` (`min_energy`) is subtracted from every job on the
connection. -/
def debitJobs (jobs : List (PermuterId × Job)) (pid : PermuterId) (add e : ℚ) :
    List (PermuterId × Job) :=
  jobs.map fun qj =>
    if qj.1 = pid then (qj.1, { qj.2 with energy := qj.2.energy + add - e })
    else (qj.1, { qj.2 with energy := qj.2.energy - e })

/-- One pass of the `choose_work` loop body, evaluated under both locks:
admission, reap, selection, starvation check, unit pop, energy debit and
renormalization. -/
def chooseWorkStep (m : MutableState) (ss : ServerState) : StepResult :=
  match findNew m.permuters ss.jobs with
  | some (pid, perm) =>
    .done m { ss with jobs := ainsert ss.jobs pid ⟨.loading, 0⟩ } pid
      (.add perm.clientId perm.clientName perm.data)
  | none =>
    match scanJobs m.permuters ss.minPriority ss.jobs none with
    | .reap pid => .done m { ss with jobs := aremove ss.jobs pid } pid .remove
    | .best none => .retry true m ss
    | .best (some (pid, e)) =>
      match alookup m.permuters pid with
      | none => .retry true m ss
      | some perm =>
        match perm.workQueue with
        | [] =>
          .retry false { m with permuters := aupdate m.permuters pid needWorkPerm } ss
        | w :: ws =>
          .done { m with permuters := aupdate m.permuters pid popPerm }
            { ss with jobs := debitJobs ss.jobs pid (perm.energyAdd * TIME_COST_MS_GUESS) e }
            pid (.work w)

/-- The `choose_work` loop, iterated with explicit fuel. In the closed model
nothing external mutates the registry between retries, so a run that keeps
retrying is cut off by the fuel (`none`). -/
def chooseWork : Nat → MutableState → ServerState → Option (MutableState × ServerState × PermuterId × ToSend)
  | 0, _, _ => none
  | fuel + 1, m, ss =>
    match chooseWorkStep m ss with
    | .done m2 ss2 pid ts => some (m2, ss2, pid, ts)
    | .retry _ m2 ss2 => chooseWork fuel m2 ss2

/-- Reachability inside one `choose_work` invocation: the loop's own retry
passes lead from the entry states to the states of a later pass of the same
invocation. -/
inductive RetryReaches : MutableState → ServerState → MutableState → ServerState → Prop where
  | refl (m : MutableState) (ss : ServerState) : RetryReaches m ss m ss
  | step (m : MutableState) (ss : ServerState) (b : Bool) (m2 : MutableState)
      (ss2 : ServerState) (m3 : MutableState) (ss3 : ServerState) :
      chooseWorkStep m ss = .retry b m2 ss2 →
      RetryReaches m2 ss2 m3 ss3 → RetryReaches m ss m3 ss3

/-- Inbound `ServerMessage` from server.rs. -/
inductive ServerMessage where
  | needWork
  | update (permuterId : PermuterId) (timeCostMs : ℚ) (update : ServerUpdate)
deriving DecidableEq

/-- One inbound transport frame: either a structured (JSON) message or a raw
binary frame. The model does not track the byte encoding of structured
frames, only their parsed content. -/
inductive InFrame where
  | json (msg : ServerMessage)
  | blob (bytes : Frame)
deriving DecidableEq

/-- The raw bytes of a frame, as seen by a `port.recv()` used for a binary
payload (for a structured frame the model substitutes an opaque empty blob). -/
def frameBytes : InFrame → Frame
  | .json _ => []
  | .blob b => b

/-- The extra `port.recv()` in `server_read`: when the update is a `Result`
with `has_source: true`, one additional frame is consumed from the transport
and attached as the compressed source (before any job lookup). `none` models
a transport failure (no frame available). -/
def consumeExtra : ServerUpdate → List InFrame → Option (ServerUpdate × List InFrame)
  | .result true _, [] => none
  | .result true _, f :: rest => some (.result true (some (frameBytes f)), rest)
  | u, rest => some (u, rest)

/-- The state transition applied to a `ConnectionJob` by `server_read` for a
given update kind. -/
def applyUpdate (u : ServerUpdate) (s : JobState) : JobState :=
  match u with
  | .initDone => .loaded
  | .initFailed => .failed
  | .disconnect => .failed
  | .result _ _ => s

/-- Whether an update sets the `log_new` flag in `server_read`. -/
def isInitDone : ServerUpdate → Bool
  | .initDone => true
  | _ => false

/-- Outcome of one iteration of the reader loop: `err` for a transport or
decode failure (the loop returns an error), `looped` for reaching the
readiness-pulse step with the pulse channel open (the loop continues), and
`closed` for reaching the pulse step with the channel closed (the loop breaks
and returns success). -/
inductive ReadOutcome where
  | err
  | looped (m : MutableState) (ss : ServerState) (rest : List InFrame) (logNew : Bool)
  | closed (m : MutableState) (ss : ServerState) (rest : List InFrame) (logNew : Bool)
deriving DecidableEq

/-- The readiness-pulse step at the end of each reader iteration
(`more_work_tx.try_send(())`): continue when the channel is open (a full
channel just drops the pulse), break successfully when it is closed. -/
def pulseOutcome (pulseClosed : Bool) (m : MutableState) (ss : ServerState)
    (rest : List InFrame) (logNew : Bool) : ReadOutcome :=
  if pulseClosed then .closed m ss rest logNew else .looped m ss rest logNew

/-- One iteration of the `server_read` loop, acting on the list of remaining
inbound frames. Mirrors the source order: receive and decode a message, read
the extra payload frame if required, then under the locks look up the
`ConnectionJob` and the registry permuter (silently skipping the mutation if
either is gone), correct the energy, apply the state transition, forward the
update to the result sink, and finally run the readiness-pulse step. -/
def serverReadStep (pulseClosed : Bool) (whoId : UserId) (whoName : String)
    (m : MutableState) (ss : ServerState) : List InFrame → ReadOutcome
  | [] => .err
  | .blob _ :: _ => .err
  | .json .needWork :: rest => pulseOutcome pulseClosed m ss rest false
  | .json (.update pid t u) :: rest =>
    match consumeExtra u rest with
    | none => .err
    | some (u2, rest2) =>
      match alookup ss.jobs pid with
      | none => pulseOutcome pulseClosed m ss rest2 false
      | some job =>
        match alookup m.permuters pid with
        | none => pulseOutcome pulseClosed m ss rest2 false
        | some perm =>
          let ss2 : ServerState :=
            { ss with jobs := aupdate ss.jobs pid fun j =>
                { state := applyUpdate u2 j.state,
                  energy := j.energy - perm.energyAdd * TIME_COST_MS_GUESS
                    + perm.energyAdd * t } }
          let m2 : MutableState :=
            { m with permuters := aupdate m.permuters pid fun p =>
                { p with results := p.results ++ [.result whoId whoName u2] } }
          pulseOutcome pulseClosed m2 ss2 rest2 (isInitDone u2)

/-- The `server_write` loop: each iteration calls `choose_work` and sends the
dispatch; the first dispatch is sent unprompted, every further one only after
one readiness pulse is received. `pulses` counts the pulses still available
before the channel reports closed; `some` is the loop ending in success after
the channel closes, `none` a run cut off by fuel (an unresolved suspension).
The transmitted dispatches are returned in order. -/
def serverWrite (cwFuel : Nat) : Nat → MutableState → ServerState → Nat →
    Option (List (PermuterId × ToSend) × MutableState × ServerState)
  | 0, _, _, _ => none
  | _ + 1, m, ss, 0 =>
    match chooseWork cwFuel m ss with
    | none => none
    | some (m2, ss2, pid, ts) => some ([(pid, ts)], m2, ss2)
  | fuel + 1, m, ss, n + 1 =>
    match chooseWork cwFuel m ss with
    | none => none
    | some (m2, ss2, pid, ts) =>
      match serverWrite cwFuel fuel m2 ss2 n with
      | none => none
      | some (l, m3, ss3) => some ((pid, ts) :: l, m3, ss3)

/-- The per-job part of the cleanup at the end of `handle_connect_server`:
for a `ConnectionJob` left in state Loaded whose registry permuter still
exists, deliver one synthesized disconnect update to its result sink. -/
def cleanupJob (whoId : UserId) (whoName : String) (m : MutableState)
    (pj : PermuterId × Job) : MutableState :=
  match pj.2.state with
  | .loaded =>
    match alookup m.permuters pj.1 with
    | some _ =>
      { m with permuters := aupdate m.permuters pj.1 fun p =>
          { p with results := p.results ++ [.result whoId whoName .disconnect] } }
    | none => m
  | _ => m

/-- The termination path of `handle_connect_server`: deliver a disconnect
update for every Loaded `ConnectionJob`, then remove this worker's
`ConnectedServer` registration. -/
def serverCleanup (whoId : UserId) (whoName : String) (serverId : Nat)
    (jobs : List (PermuterId × Job)) (m : MutableState) : MutableState :=
  let m2 := jobs.foldl (cleanupJob whoId whoName) m
  { m2 with servers := aremove m2.servers serverId }

/-- Eligibility of a `ConnectionJob` for the selection step of `choose_work`:
Loaded, registry entry present and non-stale, priority at least the
connection threshold. -/
def eligJob (perms : List (PermuterId × Permuter)) (minP : ℚ) (q : PermuterId) (j : Job) : Prop :=
  j.state = .loaded ∧ ∃ p, alookup perms q = some p ∧ p.stale = false ∧ minP ≤ p.priority

/-- The registry part of a `StepResult`. -/
def StepResult.mOf : StepResult → MutableState
  | .done m _ _ _ => m
  | .retry _ m _ => m

/-- The connection-state part of a `StepResult`. -/
def StepResult.ssOf : StepResult → ServerState
  | .done _ ss _ _ => ss
  | .retry _ _ ss => ss

/-- The minimum of the energies of a connection's jobs, `none` on an empty
map (used to state the renormalization claims). -/
def jobsMinEnergy : List (PermuterId × Job) → Option ℚ
  | [] => none
  | (_, j) :: rest => some (rest.foldl (fun acc e => min acc e.2.energy) j.energy)

/-- The remaining input frames of a reader iteration outcome (`none` on a
transport/decode error). -/
def ReadOutcome.restOf : ReadOutcome → Option (List InFrame)
  | .err => none
  | .looped _ _ rest _ => some rest
  | .closed _ _ rest _ => some rest

/-- Concrete scenario: a single eligible permuter with two pending units. -/
def permW : Permuter := ⟨"client0", "alice", ⟨[1], [2]⟩, false, 1, 1, [⟨42⟩, ⟨43⟩], 0, []⟩

def mW : MutableState := ⟨[(0, permW)], [(5, ⟨0, 4⟩)]⟩

def ssW : ServerState := ⟨0, [(0, ⟨.loaded, 0⟩)]⟩

/-- The registry resulting from the unit pop in the `mW`/`ssW` scenario. -/
def mWafter : MutableState := { mW with permuters := aupdate mW.permuters 0 popPerm }

/-- The connection state resulting from the unit pop in the scenario. -/
def ssWafter : ServerState :=
  { ssW with jobs := debitJobs ssW.jobs 0 (permW.energyAdd * TIME_COST_MS_GUESS) 0 }

/-- Concrete scenario: an eligible job at energy 5 next to a Failed job at
energy 2 (which the renormalization will push below zero). -/
def permX : Permuter := ⟨"client0", "alice", ⟨[], []⟩, false, 1, 1, [⟨7⟩], 0, []⟩

def permY : Permuter := ⟨"client1", "bob", ⟨[], []⟩, false, 0, 1, [], 0, []⟩

def mX : MutableState := ⟨[(0, permX), (1, permY)], []⟩

def ssX : ServerState := ⟨1, [(0, ⟨.loaded, 5⟩), (1, ⟨.failed, 2⟩)]⟩

/-- The registry resulting from the unit pop in the `mX`/`ssX` scenario. -/
def mXafter : MutableState := { mX with permuters := aupdate mX.permuters 0 popPerm }

/-- The connection state resulting from the unit pop in the scenario. -/
def ssXafter : ServerState :=
  { ssX with jobs := debitJobs ssX.jobs 0 (permX.energyAdd * TIME_COST_MS_GUESS) 5 }

/-- Concrete scenario: a fresh registry permuter (id 1) not yet on the
connection while the ConnectionJob of id 0 has lost its registry entry. -/
def permNew : Permuter := ⟨"client2", "carol", ⟨[3], [4]⟩, false, 5, 1, [], 0, []⟩

def mC5 : MutableState := ⟨[(1, permNew)], []⟩

def ssC5 : ServerState := ⟨0, [(0, ⟨.loaded, 0⟩)]⟩

/-- Concrete scenario: a single eligible permuter whose queue is empty. -/
def permE : Permuter := ⟨"client3", "dave", ⟨[], []⟩, false, 1, 1, [], 0, []⟩

def mE : MutableState := ⟨[(0, permE)], []⟩

def ssE : ServerState := ⟨0, [(0, ⟨.loaded, 0⟩)]⟩

/-- Concrete scenario: an empty registry while one ConnectionJob remains. -/
def mReap : MutableState := ⟨[], []⟩

def ssReap : ServerState := ⟨0, [(0, ⟨.loaded, 0⟩)]⟩

/-- Concrete scenario for the reader loop: one Loaded job at energy 0. -/
def permR : Permuter := ⟨"client4", "erin", ⟨[], []⟩, false, 1, 1, [], 0, []⟩

def mR : MutableState := ⟨[(0, permR)], []⟩

def ssR : ServerState := ⟨0, [(0, ⟨.loaded, 0⟩)]⟩

/-- Concrete scenario for the supervisor cleanup: two mirrored permuters, one
ConnectionJob Loaded and one Failed, one registered server. -/
def permL : Permuter := ⟨"client5", "frank", ⟨[], []⟩, false, 1, 1, [], 0, [.needWork]⟩

def mL : MutableState := ⟨[(0, permL), (1, permL)], [(3, ⟨0, 8⟩)]⟩

def jobsL : List (PermuterId × Job) := [(0, ⟨.loaded, 0⟩), (1, ⟨.failed, 0⟩)]

theorem alookup_cons {α : Type} (k2 : Nat) (v : α) (rest : List (Nat × α)) (k : Nat) :
    alookup ((k2, v) :: rest) k = if k2 = k then some v else alookup rest k := rfl

theorem aupdate_cons {α : Type} (k2 : Nat) (v : α) (rest : List (Nat × α)) (k : Nat)
    (f : α → α) :
    aupdate ((k2, v) :: rest) k f =
      (if k2 = k then (k2, f v) else (k2, v)) :: aupdate rest k f := by
  by_cases h : k2 = k <;> simp [aupdate, h]

theorem alookup_aupdate_self {α : Type} (l : List (Nat × α)) (k : Nat) (f : α → α) :
    alookup (aupdate l k f) k = (alookup l k).map f := by
  induction l with
  | nil => rfl
  | cons e rest ih =>
    obtain ⟨k2, v⟩ := e
    rw [aupdate_cons]
    by_cases h : k2 = k
    · rw [if_pos h, alookup_cons, alookup_cons, if_pos h, if_pos h]
      rfl
    · rw [if_neg h, alookup_cons, alookup_cons, if_neg h, if_neg h, ih]

theorem alookup_aupdate_ne {α : Type} (l : List (Nat × α)) (k k2 : Nat) (f : α → α)
    (h : k ≠ k2) : alookup (aupdate l k f) k2 = alookup l k2 := by
  induction l with
  | nil => rfl
  | cons e rest ih =>
    obtain ⟨k3, v⟩ := e
    rw [aupdate_cons]
    by_cases h3 : k3 = k
    · have h32 : ¬k3 = k2 := by rw [h3]; exact h
      rw [if_pos h3, alookup_cons, alookup_cons, if_neg h32, if_neg h32, ih]
    · rw [if_neg h3, alookup_cons, alookup_cons, ih]

theorem alookup_aupdate_none {α : Type} (l : List (Nat × α)) (k k2 : Nat) (f : α → α)
    (h : alookup l k2 = none) : alookup (aupdate l k f) k2 = none := by
  by_cases hk : k = k2
  · subst hk
    simp [alookup_aupdate_self, h]
  · simp [alookup_aupdate_ne _ _ _ _ hk, h]

theorem alookup_of_mem_nodup {α : Type} (l : List (Nat × α)) (k : Nat) (v : α)
    (hnd : (l.map Prod.fst).Nodup) (hm : (k, v) ∈ l) : alookup l k = some v := by
  induction l with
  | nil => simp at hm
  | cons e rest ih =>
    obtain ⟨k2, v2⟩ := e
    simp only [List.map_cons, List.nodup_cons] at hnd
    rcases List.mem_cons.mp hm with h | h
    · obtain ⟨rfl, rfl⟩ := Prod.mk.injEq .. ▸ h
      simp [alookup]
    · have hk : k2 ≠ k := by
        intro rfl2
        exact hnd.1 (by simpa using List.mem_map_of_mem Prod.fst (rfl2 ▸ h))
      simp [alookup, hk, ih hnd.2 h]

theorem scanJobs_cons_none (perms : List (PermuterId × Permuter)) (minP : ℚ)
    (pid : PermuterId) (job : Job) (rest : List (PermuterId × Job))
    (best : Option (PermuterId × ℚ)) (h : alookup perms pid = none) :
    scanJobs perms minP ((pid, job) :: rest) best = .reap pid := by
  simp [scanJobs, h]

theorem scanJobs_cons_some (perms : List (PermuterId × Permuter)) (minP : ℚ)
    (pid : PermuterId) (job : Job) (rest : List (PermuterId × Job))
    (best : Option (PermuterId × ℚ)) (perm : Permuter)
    (h : alookup perms pid = some perm) :
    scanJobs perms minP ((pid, job) :: rest) best =
      if job.state = .loaded ∧ perm.stale = false ∧ minP ≤ perm.priority ∧
          bestBeats best job.energy then
        scanJobs perms minP rest (some (pid, job.energy))
      else
        scanJobs perms minP rest best := by
  simp [scanJobs, h]

/-- A candidate reported by the selection scan was an eligible entry of the
scanned list (or was already the accumulator). -/
theorem scanJobs_best_from (perms : List (PermuterId × Permuter)) (minP : ℚ)
    (jobs : List (PermuterId × Job)) (best : Option (PermuterId × ℚ))
    (pid : PermuterId) (e : ℚ)
    (h : scanJobs perms minP jobs best = .best (some (pid, e))) :
    (∃ j, (pid, j) ∈ jobs ∧ j.energy = e ∧ j.state = .loaded ∧
      ∃ p, alookup perms pid = some p ∧ p.stale = false ∧ minP ≤ p.priority) ∨
    best = some (pid, e) := by
  induction jobs generalizing best with
  | nil =>
    right
    simpa [scanJobs] using h
  | cons pj rest ih =>
    obtain ⟨q, j⟩ := pj
    cases hq : alookup perms q with
    | none =>
      rw [scanJobs_cons_none perms minP q j rest best hq] at h
      exact absurd h (by simp)
    | some perm =>
      rw [scanJobs_cons_some perms minP q j rest best perm hq] at h
      by_cases hc : j.state = .loaded ∧ perm.stale = false ∧ minP ≤ perm.priority ∧
          bestBeats best j.energy
      · rw [if_pos hc] at h
        rcases ih _ h with hmem | hacc
        · obtain ⟨j2, hj2, hrest⟩ := hmem
          exact Or.inl ⟨j2, List.mem_cons_of_mem _ hj2, hrest⟩
        · have hqe : q = pid ∧ j.energy = e := by
            simpa using hacc
          obtain ⟨rfl, rfl⟩ := hqe
          exact Or.inl ⟨j, List.mem_cons_self _ _, rfl, hc.1, perm, hq, hc.2.1, hc.2.2.1⟩
      · rw [if_neg hc] at h
        rcases ih _ h with hmem | hacc
        · obtain ⟨j2, hj2, hrest⟩ := hmem
          exact Or.inl ⟨j2, List.mem_cons_of_mem _ hj2, hrest⟩
        · exact Or.inr hacc

/-- The candidate reported by the selection scan has minimal energy among the
eligible entries of the scanned list, and beats the accumulator. -/
theorem scanJobs_best_min (perms : List (PermuterId × Permuter)) (minP : ℚ)
    (jobs : List (PermuterId × Job)) (best : Option (PermuterId × ℚ))
    (pid : PermuterId) (e : ℚ)
    (h : scanJobs perms minP jobs best = .best (some (pid, e))) :
    (∀ q j, (q, j) ∈ jobs → eligJob perms minP q j → e ≤ j.energy) ∧
    (∀ p0 e0, best = some (p0, e0) → e ≤ e0) := by
  induction jobs generalizing best with
  | nil =>
    have hb : best = some (pid, e) := by simpa [scanJobs] using h
    refine ⟨by simp, ?_⟩
    intro p0 e0 h0
    rw [h0] at hb
    simp only [Option.some.injEq, Prod.mk.injEq] at hb
    exact le_of_eq hb.2.symm
  | cons pj rest ih =>
    obtain ⟨q, j⟩ := pj
    cases hq : alookup perms q with
    | none =>
      rw [scanJobs_cons_none perms minP q j rest best hq] at h
      exact absurd h (by simp)
    | some perm =>
      rw [scanJobs_cons_some perms minP q j rest best perm hq] at h
      by_cases hc : j.state = .loaded ∧ perm.stale = false ∧ minP ≤ perm.priority ∧
          bestBeats best j.energy
      · rw [if_pos hc] at h
        obtain ⟨ihA, ihB⟩ := ih _ h
        have hje : e ≤ j.energy := ihB q j.energy rfl
        refine ⟨?_, ?_⟩
        · intro q2 j2 hm helig
          rcases List.mem_cons.mp hm with hhead | htail
          · obtain ⟨rfl, rfl⟩ := Prod.mk.injEq .. ▸ hhead
            exact hje
          · exact ihA q2 j2 htail helig
        · intro p0 e0 h0
          subst h0
          have hbeats : bestBeats (some (p0, e0)) j.energy = true := hc.2.2.2
          have hlt : j.energy < e0 := by simpa [bestBeats] using hbeats
          exact le_of_lt (lt_of_le_of_lt hje hlt)
      · rw [if_neg hc] at h
        obtain ⟨ihA, ihB⟩ := ih _ h
        refine ⟨?_, ihB⟩
        intro q2 j2 hm helig
        rcases List.mem_cons.mp hm with hhead | htail
        · obtain ⟨rfl, rfl⟩ := Prod.mk.injEq .. ▸ hhead
          obtain ⟨hst, p, hp, hps, hpp⟩ := helig
          rw [hq] at hp
          obtain rfl : perm = p := by simpa using hp
          have hnb : bestBeats best j2.energy = false := by
            cases hbb : bestBeats best j2.energy with
            | false => rfl
            | true => exact absurd ⟨hst, hps, hpp, hbb⟩ hc
          cases best with
          | none => simp [bestBeats] at hnb
          | some b =>
            have hble : b.2 ≤ j2.energy := by
              have := hnb
              simp only [bestBeats, decide_eq_false_iff_not, not_lt] at this
              exact this
            exact le_trans (ihB b.1 b.2 rfl) hble
        · exact ihA q2 j2 htail helig

theorem mem_keys_of_alookup_eq_some {α : Type} (l : List (Nat × α)) (k : Nat) (v : α)
    (h : alookup l k = some v) : k ∈ l.map Prod.fst := by
  induction l with
  | nil => simp [alookup] at h
  | cons e rest ih =>
    obtain ⟨k2, v2⟩ := e
    by_cases hk : k2 = k
    · subst hk
      simp
    · simp only [alookup, if_neg hk] at h
      simp [ih h]

theorem alookup_aremove_self {α : Type} (l : List (Nat × α)) (k : Nat)
    (hnd : (l.map Prod.fst).Nodup) : alookup (aremove l k) k = none := by
  induction l with
  | nil => rfl
  | cons e rest ih =>
    obtain ⟨k2, v2⟩ := e
    simp only [List.map_cons, List.nodup_cons] at hnd
    by_cases h : k2 = k
    · subst h
      simp only [aremove, if_pos rfl]
      cases hl : alookup rest k2 with
      | none => exact hl
      | some v3 => exact absurd (mem_keys_of_alookup_eq_some rest k2 v3 hl) hnd.1
    · simp [aremove, h, alookup, ih hnd.2]

/-- Exhaustive description of one pass of the `choose_work` loop body: it
either admits a new permuter, reaps a vanished one, suspends for lack of an
eligible candidate, marks the chosen candidate stale on an empty queue, or
pops a unit and returns a work dispatch. -/
theorem chooseWorkStep_cases (m : MutableState) (ss : ServerState) :
    (∃ pid perm, findNew m.permuters ss.jobs = some (pid, perm) ∧
      chooseWorkStep m ss = .done m { ss with jobs := ainsert ss.jobs pid ⟨.loading, 0⟩ }
        pid (.add perm.clientId perm.clientName perm.data)) ∨
    (∃ pid, findNew m.permuters ss.jobs = none ∧
      scanJobs m.permuters ss.minPriority ss.jobs none = .reap pid ∧
      chooseWorkStep m ss = .done m { ss with jobs := aremove ss.jobs pid } pid .remove) ∨
    (findNew m.permuters ss.jobs = none ∧
      scanJobs m.permuters ss.minPriority ss.jobs none = .best none ∧
      chooseWorkStep m ss = .retry true m ss) ∨
    (∃ pid e, findNew m.permuters ss.jobs = none ∧
      scanJobs m.permuters ss.minPriority ss.jobs none = .best (some (pid, e)) ∧
      alookup m.permuters pid = none ∧
      chooseWorkStep m ss = .retry true m ss) ∨
    (∃ pid e perm, findNew m.permuters ss.jobs = none ∧
      scanJobs m.permuters ss.minPriority ss.jobs none = .best (some (pid, e)) ∧
      alookup m.permuters pid = some perm ∧ perm.workQueue = [] ∧
      chooseWorkStep m ss = .retry false
        { m with permuters := aupdate m.permuters pid needWorkPerm } ss) ∨
    (∃ pid e perm w ws, findNew m.permuters ss.jobs = none ∧
      scanJobs m.permuters ss.minPriority ss.jobs none = .best (some (pid, e)) ∧
      alookup m.permuters pid = some perm ∧ perm.workQueue = w :: ws ∧
      chooseWorkStep m ss = .done { m with permuters := aupdate m.permuters pid popPerm }
        { ss with jobs := debitJobs ss.jobs pid (perm.energyAdd * TIME_COST_MS_GUESS) e }
        pid (.work w)) := by
  cases hf : findNew m.permuters ss.jobs with
  | some pp =>
    obtain ⟨pid, perm⟩ := pp
    exact Or.inl ⟨pid, perm, rfl, by simp [chooseWorkStep, hf]⟩
  | none =>
    cases hs : scanJobs m.permuters ss.minPriority ss.jobs none with
    | reap pid =>
      exact Or.inr (Or.inl ⟨pid, rfl, rfl, by simp [chooseWorkStep, hf, hs]⟩)
    | best b =>
      cases b with
      | none =>
        exact Or.inr (Or.inr (Or.inl ⟨rfl, rfl, by simp [chooseWorkStep, hf, hs]⟩))
      | some pe =>
        obtain ⟨pid, e⟩ := pe
        cases hl : alookup m.permuters pid with
        | none =>
          exact Or.inr (Or.inr (Or.inr (Or.inl
            ⟨pid, e, rfl, rfl, hl, by simp [chooseWorkStep, hf, hs, hl]⟩)))
        | some perm =>
          cases hwq : perm.workQueue with
          | nil =>
            exact Or.inr (Or.inr (Or.inr (Or.inr (Or.inl
              ⟨pid, e, perm, rfl, rfl, hl, hwq, by simp [chooseWorkStep, hf, hs, hl, hwq]⟩))))
          | cons w ws =>
            exact Or.inr (Or.inr (Or.inr (Or.inr (Or.inr
              ⟨pid, e, perm, w, ws, rfl, rfl, hl, hwq,
                by simp [chooseWorkStep, hf, hs, hl, hwq]⟩))))

/-- Inversion for a returned work dispatch: it can only arise from the unit
pop branch, with the selected candidate coming from the selection scan. -/
theorem chooseWorkStep_work_inv (m : MutableState) (ss : ServerState)
    (m2 : MutableState) (ss2 : ServerState) (pid : PermuterId) (w : PermuterWork)
    (h : chooseWorkStep m ss = .done m2 ss2 pid (.work w)) :
    ∃ e perm ws, findNew m.permuters ss.jobs = none ∧
      scanJobs m.permuters ss.minPriority ss.jobs none = .best (some (pid, e)) ∧
      alookup m.permuters pid = some perm ∧ perm.workQueue = w :: ws ∧
      m2 = { m with permuters := aupdate m.permuters pid popPerm } ∧
      ss2 = { ss with jobs := debitJobs ss.jobs pid (perm.energyAdd * TIME_COST_MS_GUESS) e } := by
  rcases chooseWorkStep_cases m ss with
    ⟨p, perm, hf, he⟩ | ⟨p, hf, hs, he⟩ | ⟨hf, hs, he⟩ | ⟨p, e, hf, hs, hl, he⟩ |
    ⟨p, e, perm, hf, hs, hl, hq, he⟩ | ⟨p, e, perm, w2, ws, hf, hs, hl, hq, he⟩ <;>
    rw [he] at h
  · simp at h
  · simp at h
  · simp at h
  · simp at h
  · simp at h
  · simp only [StepResult.done.injEq, ToSend.work.injEq] at h
    obtain ⟨hm2, hss2, rfl, rfl⟩ := h
    exact ⟨e, perm, ws, hf, hs, hl, hq, hm2.symm, hss2.symm⟩

/-- A permuter id absent from the registry stays absent across one pass of
the `choose_work` loop body (the scheduler never inserts registry entries). -/
theorem chooseWorkStep_absent_mono (m : MutableState) (ss : ServerState) (pid : PermuterId)
    (h : alookup m.permuters pid = none) :
    alookup (chooseWorkStep m ss).mOf.permuters pid = none := by
  rcases chooseWorkStep_cases m ss with
    ⟨p, perm, hf, he⟩ | ⟨p, hf, hs, he⟩ | ⟨hf, hs, he⟩ | ⟨p, e, hf, hs, hl, he⟩ |
    ⟨p, e, perm, hf, hs, hl, hq, he⟩ | ⟨p, e, perm, w2, ws, hf, hs, hl, hq, he⟩ <;>
    rw [he] <;> simp only [StepResult.mOf] <;>
    first
      | exact h
      | exact alookup_aupdate_none _ _ _ _ h

/-- A stale permuter stays stale across one pass of the `choose_work` loop
body (the scheduler only sets the stale flag, never clears it). -/
theorem chooseWorkStep_stale_mono (m : MutableState) (ss : ServerState) (pid : PermuterId)
    (p : Permuter) (h : alookup m.permuters pid = some p) (hst : p.stale = true) :
    ∃ p2, alookup (chooseWorkStep m ss).mOf.permuters pid = some p2 ∧ p2.stale = true := by
  rcases chooseWorkStep_cases m ss with
    ⟨q, perm, hf, he⟩ | ⟨q, hf, hs, he⟩ | ⟨hf, hs, he⟩ | ⟨q, e, hf, hs, hl, he⟩ |
    ⟨q, e, perm, hf, hs, hl, hq, he⟩ | ⟨q, e, perm, w2, ws, hf, hs, hl, hq, he⟩ <;>
    rw [he] <;> simp only [StepResult.mOf]
  · exact ⟨p, h, hst⟩
  · exact ⟨p, h, hst⟩
  · exact ⟨p, h, hst⟩
  · exact ⟨p, h, hst⟩
  · by_cases hqp : q = pid
    · subst hqp
      refine ⟨needWorkPerm p, ?_, rfl⟩
      rw [alookup_aupdate_self, h]
      rfl
    · exact ⟨p, by rw [alookup_aupdate_ne _ _ _ _ hqp, h], hst⟩
  · by_cases hqp : q = pid
    · subst hqp
      refine ⟨popPerm p, ?_, hst⟩
      rw [alookup_aupdate_self, h]
      rfl
    · exact ⟨p, by rw [alookup_aupdate_ne _ _ _ _ hqp, h], hst⟩

/-- One pass of the `choose_work` loop body never changes the connection's
minimum-priority threshold. -/
theorem chooseWorkStep_minPriority (m : MutableState) (ss : ServerState) :
    (chooseWorkStep m ss).ssOf.minPriority = ss.minPriority := by
  rcases chooseWorkStep_cases m ss with
    ⟨q, perm, hf, he⟩ | ⟨q, hf, hs, he⟩ | ⟨hf, hs, he⟩ | ⟨q, e, hf, hs, hl, he⟩ |
    ⟨q, e, perm, hf, hs, hl, hq, he⟩ | ⟨q, e, perm, w2, ws, hf, hs, hl, hq, he⟩ <;>
    rw [he] <;> rfl

/-- A work dispatch is never returned for an id that is absent from the
registry. -/
theorem chooseWorkStep_no_work_absent (m : MutableState) (ss : ServerState)
    (pid : PermuterId) (h : alookup m.permuters pid = none) (m2 : MutableState)
    (ss2 : ServerState) (w : PermuterWork) :
    chooseWorkStep m ss ≠ .done m2 ss2 pid (.work w) := by
  intro hc
  obtain ⟨e, perm, ws, _, _, hl, _⟩ := chooseWorkStep_work_inv m ss m2 ss2 pid w hc
  rw [h] at hl
  cases hl

/-- A work dispatch is never returned for a stale permuter. -/
theorem chooseWorkStep_no_work_stale (m : MutableState) (ss : ServerState)
    (pid : PermuterId) (p : Permuter) (h : alookup m.permuters pid = some p)
    (hst : p.stale = true) (m2 : MutableState) (ss2 : ServerState) (w : PermuterWork) :
    chooseWorkStep m ss ≠ .done m2 ss2 pid (.work w) := by
  intro hc
  obtain ⟨e, perm, ws, hf, hscan, hl, _⟩ := chooseWorkStep_work_inv m ss m2 ss2 pid w hc
  rcases scanJobs_best_from _ _ _ _ _ _ hscan with ⟨j, hj, hje, hjs, p2, hp2, hp2s, _⟩ | hacc
  · rw [h] at hp2
    obtain rfl : p = p2 := by simpa using hp2
    rw [hst] at hp2s
    cases hp2s
  · cases hacc

/-- Across a whole `choose_work` invocation, an id absent from the registry
never receives a work dispatch. -/
theorem chooseWork_no_work_absent (fuel : Nat) (m : MutableState) (ss : ServerState)
    (pid : PermuterId) (h : alookup m.permuters pid = none) (m2 : MutableState)
    (ss2 : ServerState) (w : PermuterWork) :
    chooseWork fuel m ss ≠ some (m2, ss2, pid, .work w) := by
  induction fuel generalizing m ss with
  | zero => simp [chooseWork]
  | succ n ih =>
    intro hc
    simp only [chooseWork] at hc
    cases hstep : chooseWorkStep m ss with
    | done m3 ss3 pid3 ts =>
      rw [hstep] at hc
      simp only [Option.some.injEq, Prod.mk.injEq] at hc
      obtain ⟨rfl, rfl, rfl, rfl⟩ := hc
      exact chooseWorkStep_no_work_absent m ss _ h _ _ _ hstep
    | retry b m3 ss3 =>
      rw [hstep] at hc
      have h3 : alookup m3.permuters pid = none := by
        have := chooseWorkStep_absent_mono m ss pid h
        rw [hstep] at this
        exact this
      exact ih m3 ss3 h3 hc

/-- Across a whole `choose_work` invocation, a permuter that is stale at the
start (and which nothing external unstales) never receives a work dispatch. -/
theorem chooseWork_no_work_stale (fuel : Nat) (m : MutableState) (ss : ServerState)
    (pid : PermuterId) (p : Permuter) (h : alookup m.permuters pid = some p)
    (hst : p.stale = true) (m2 : MutableState) (ss2 : ServerState) (w : PermuterWork) :
    chooseWork fuel m ss ≠ some (m2, ss2, pid, .work w) := by
  induction fuel generalizing m ss p with
  | zero => simp [chooseWork]
  | succ n ih =>
    intro hc
    simp only [chooseWork] at hc
    cases hstep : chooseWorkStep m ss with
    | done m3 ss3 pid3 ts =>
      rw [hstep] at hc
      simp only [Option.some.injEq, Prod.mk.injEq] at hc
      obtain ⟨rfl, rfl, rfl, rfl⟩ := hc
      exact chooseWorkStep_no_work_stale m ss _ p h hst _ _ _ hstep
    | retry b m3 ss3 =>
      rw [hstep] at hc
      obtain ⟨p2, hp2, hp2s⟩ := chooseWorkStep_stale_mono m ss pid p h hst
      rw [hstep] at hp2
      exact ih m3 ss3 p2 hp2 hp2s hc

/-- C1: whenever an invocation of `choose_work` returns a work dispatch for a
job id, there are selection-time states `m0`/`ss0` — reached from the
invocation's entry states by the loop's own retry passes, and whose final
pass produces exactly the returned dispatch — in which that job's
`ConnectionJob` was Loaded, its registry permuter existed, was not stale, had
priority at least the connection's minimum-priority threshold (which never
changes across the invocation), and had a non-empty pending-unit queue. In
particular a job whose priority is below the threshold is never the subject
of a work dispatch. -/
theorem C1_work_dispatch_eligibility (fuel : Nat) (m : MutableState) (ss : ServerState)
    (m2 : MutableState) (ss2 : ServerState) (pid : PermuterId) (w : PermuterWork)
    (h : chooseWork fuel m ss = some (m2, ss2, pid, .work w)) :
    ∃ (m0 : MutableState) (ss0 : ServerState),
      RetryReaches m ss m0 ss0 ∧
      chooseWorkStep m0 ss0 = .done m2 ss2 pid (.work w) ∧
      ss0.minPriority = ss.minPriority ∧
      (∃ j, (pid, j) ∈ ss0.jobs ∧ j.state = .loaded) ∧
      ∃ p, alookup m0.permuters pid = some p ∧ p.stale = false ∧
        ss.minPriority ≤ p.priority ∧ p.workQueue ≠ [] := by
  induction fuel generalizing m ss with
  | zero => simp [chooseWork] at h
  | succ n ih =>
    simp only [chooseWork] at h
    cases hstep : chooseWorkStep m ss with
    | done m3 ss3 pid3 ts =>
      rw [hstep] at h
      simp only [Option.some.injEq, Prod.mk.injEq] at h
      obtain ⟨rfl, rfl, rfl, rfl⟩ := h
      obtain ⟨e, perm, ws, hf, hscan, hl, hq, _, _⟩ :=
        chooseWorkStep_work_inv m ss _ _ _ _ hstep
      rcases scanJobs_best_from _ _ _ _ _ _ hscan with
        ⟨j, hj, hje, hjs, p2, hp2, hp2s, hp2p⟩ | hacc
      · rw [hl] at hp2
        obtain rfl : perm = p2 := by simpa using hp2
        refine ⟨m, ss, RetryReaches.refl m ss, hstep, rfl, ⟨j, hj, hjs⟩,
          perm, hl, hp2s, hp2p, ?_⟩
        rw [hq]
        simp
      · cases hacc
    | retry b m3 ss3 =>
      rw [hstep] at h
      have hmp3 : ss3.minPriority = ss.minPriority := by
        have := chooseWorkStep_minPriority m ss
        rw [hstep] at this
        exact this
      obtain ⟨m0, ss0, hreach, hdone, hmp, hjob, p, hlk, hstale, hprio, hqne⟩ :=
        ih m3 ss3 h
      exact ⟨m0, ss0, RetryReaches.step m ss b m3 ss3 m0 ss0 hstep hreach, hdone,
        hmp.trans hmp3, hjob, p, hlk, hstale, hmp3 ▸ hprio, hqne⟩

theorem debitJobs_cons (k2 : Nat) (v : Job) (rest : List (PermuterId × Job))
    (pid : PermuterId) (add e : ℚ) :
    debitJobs ((k2, v) :: rest) pid add e =
      (if k2 = pid then (k2, { v with energy := v.energy + add - e })
       else (k2, { v with energy := v.energy - e })) :: debitJobs rest pid add e := by
  by_cases h : k2 = pid <;> simp [debitJobs, h]

theorem alookup_debitJobs_self (jobs : List (PermuterId × Job)) (pid : PermuterId)
    (add e : ℚ) :
    alookup (debitJobs jobs pid add e) pid =
      (alookup jobs pid).map fun j => { j with energy := j.energy + add - e } := by
  induction jobs with
  | nil => rfl
  | cons pj rest ih =>
    obtain ⟨k2, v⟩ := pj
    rw [debitJobs_cons]
    by_cases h : k2 = pid
    · rw [if_pos h, alookup_cons, alookup_cons, if_pos h, if_pos h]
      rfl
    · rw [if_neg h, alookup_cons, alookup_cons, if_neg h, if_neg h, ih]

theorem alookup_debitJobs_ne (jobs : List (PermuterId × Job)) (pid : PermuterId)
    (add e : ℚ) (q : Nat) (h : q ≠ pid) :
    alookup (debitJobs jobs pid add e) q =
      (alookup jobs q).map fun j => { j with energy := j.energy - e } := by
  induction jobs with
  | nil => rfl
  | cons pj rest ih =>
    obtain ⟨k2, v⟩ := pj
    rw [debitJobs_cons]
    by_cases hk : k2 = pid
    · have hkq : ¬k2 = q := fun hh => h (hh ▸ hk)
      rw [if_pos hk, alookup_cons, alookup_cons, if_neg hkq, if_neg hkq, ih]
    · by_cases hkq : k2 = q
      · rw [if_neg hk, alookup_cons, alookup_cons, if_pos hkq, if_pos hkq]
        rfl
      · rw [if_neg hk, alookup_cons, alookup_cons, if_neg hkq, if_neg hkq, ih]

/-- C2 (amended): after a successful unit pop, every `ConnectionJob`'s energy
has been decreased by the selected job's pre-debit energy — the minimum among
eligible jobs, not among all jobs — and the selected job additionally gains
the estimate debit, ending at exactly `energy_add * TIME_COST_MS_GUESS`. The
minimum across all jobs is therefore 0 only when some other job's prior
energy tied the selected job's; it is not 0 in general. -/
theorem C2_renormalization_amended (m : MutableState) (ss : ServerState)
    (m2 : MutableState) (ss2 : ServerState) (pid : PermuterId) (w : PermuterWork)
    (hnd : (ss.jobs.map Prod.fst).Nodup)
    (h : chooseWorkStep m ss = .done m2 ss2 pid (.work w)) :
    ∃ (perm : Permuter) (job : Job),
      alookup m.permuters pid = some perm ∧
      alookup ss.jobs pid = some job ∧ job.state = .loaded ∧
      (∀ q j, (q, j) ∈ ss.jobs → eligJob m.permuters ss.minPriority q j →
        job.energy ≤ j.energy) ∧
      ss2.jobs = debitJobs ss.jobs pid (perm.energyAdd * TIME_COST_MS_GUESS) job.energy ∧
      alookup ss2.jobs pid = some ⟨.loaded, perm.energyAdd * TIME_COST_MS_GUESS⟩ := by
  obtain ⟨e, perm, ws, hf, hscan, hl, hq, hm2, hss2⟩ :=
    chooseWorkStep_work_inv m ss m2 ss2 pid w h
  rcases scanJobs_best_from _ _ _ _ _ _ hscan with
    ⟨j, hj, hje, hjs, p2, hp2, hp2s, hp2p⟩ | hacc
  · have hlj : alookup ss.jobs pid = some j := alookup_of_mem_nodup _ _ _ hnd hj
    have hmin := (scanJobs_best_min _ _ _ _ _ _ hscan).1
    refine ⟨perm, j, hl, hlj, hjs, ?_, ?_, ?_⟩
    · intro q j2 hm2m helig
      have := hmin q j2 hm2m helig
      rw [hje]
      exact this
    · rw [hss2, hje]
    · rw [hss2]
      rw [alookup_debitJobs_self, hlj]
      simp only [Option.map_some']
      congr 1
      rw [Job.mk.injEq]
      refine ⟨hjs, ?_⟩
      rw [hje]
      ring
  · cases hacc

theorem C1_witness :
    ∃ (m0 : MutableState) (ss0 : ServerState),
      RetryReaches mW ssW m0 ss0 ∧
      chooseWorkStep m0 ss0 = .done mWafter ssWafter 0 (.work ⟨42⟩) ∧
      ss0.minPriority = ssW.minPriority ∧
      (∃ j, ((0 : PermuterId), j) ∈ ss0.jobs ∧ j.state = .loaded) ∧
      ∃ p, alookup m0.permuters 0 = some p ∧ p.stale = false ∧
        ssW.minPriority ≤ p.priority ∧ p.workQueue ≠ [] :=
  C1_work_dispatch_eligibility 1 mW ssW mWafter ssWafter 0 ⟨42⟩ rfl

/-- C2 (counterexample): on a connection with a single Loaded eligible job at
energy 0 and cost weight 1, a successful unit pop leaves that sole job — and
hence the minimum over all of the connection's jobs — at energy 100, not 0. -/
theorem C2_counterexample :
    ∃ (m2 : MutableState) (ss2 : ServerState),
      chooseWorkStep mW ssW = .done m2 ss2 0 (.work ⟨42⟩) ∧
      jobsMinEnergy ss2.jobs = some 100 ∧ jobsMinEnergy ss2.jobs ≠ some 0 := by
  refine ⟨_, _, rfl, ?_, ?_⟩ <;>
    norm_num [jobsMinEnergy, chooseWorkStep, findNew, scanJobs, alookup, bestBeats,
      debitJobs, aupdate, popPerm, mW, ssW, permW, TIME_COST_MS_GUESS]

theorem C2_witness :
    ∃ (perm : Permuter) (job : Job),
      alookup mW.permuters 0 = some perm ∧
      alookup ssW.jobs 0 = some job ∧ job.state = .loaded ∧
      (∀ q j, (q, j) ∈ ssW.jobs → eligJob mW.permuters ssW.minPriority q j →
        job.energy ≤ j.energy) ∧
      ssWafter.jobs = debitJobs ssW.jobs 0 (perm.energyAdd * TIME_COST_MS_GUESS) job.energy ∧
      alookup ssWafter.jobs 0 = some ⟨.loaded, perm.energyAdd * TIME_COST_MS_GUESS⟩ :=
  C2_renormalization_amended mW ssW mWafter ssWafter 0 ⟨42⟩ (by decide) rfl

/-- C3: the renormalization subtracts the selected job's pre-debit energy —
the minimum among eligible jobs only — from every `ConnectionJob` on the
connection, including Loading, Failed, stale and below-threshold ones, with
no clamping at zero; consequently both this subtraction and the reader's
measured-cost correction (when measured time is below the fixed estimate)
can leave a `ConnectionJob` with strictly negative energy. -/
theorem C3_unclamped_energy_subtraction :
    (∀ (m : MutableState) (ss : ServerState) (m2 : MutableState) (ss2 : ServerState)
      (pid : PermuterId) (w : PermuterWork) (q : PermuterId) (j : Job),
      (ss.jobs.map Prod.fst).Nodup →
      chooseWorkStep m ss = .done m2 ss2 pid (.work w) →
      alookup ss.jobs q = some j → q ≠ pid →
      ∃ job, alookup ss.jobs pid = some job ∧
        alookup ss2.jobs q = some ⟨j.state, j.energy - job.energy⟩) ∧
    (∃ (m2 : MutableState) (ss2 : ServerState),
      chooseWorkStep mX ssX = .done m2 ss2 0 (.work ⟨7⟩) ∧
      alookup ss2.jobs 1 = some ⟨.failed, -3⟩ ∧ (-3 : ℚ) < 0) ∧
    (∃ (m2 : MutableState) (ss2 : ServerState),
      serverReadStep false "w1" "worker" mR ssR
          [.json (.update 0 40 (.result false none))] = .looped m2 ss2 [] false ∧
      alookup ss2.jobs 0 = some ⟨.loaded, -60⟩ ∧ (-60 : ℚ) < 0) := by
  refine ⟨?_, ?_, ?_⟩
  · intro m ss m2 ss2 pid w q j hnd h hq hqp
    obtain ⟨e, perm, ws, hf, hscan, hl, hwq, hm2, hss2⟩ :=
      chooseWorkStep_work_inv m ss m2 ss2 pid w h
    rcases scanJobs_best_from _ _ _ _ _ _ hscan with
      ⟨j0, hj0, hj0e, hj0s, p2, hp2, hp2s, hp2p⟩ | hacc
    · refine ⟨j0, alookup_of_mem_nodup _ _ _ hnd hj0, ?_⟩
      rw [hss2]
      rw [alookup_debitJobs_ne _ _ _ _ _ hqp, hq]
      simp only [Option.map_some']
      congr 1
      rw [Job.mk.injEq]
      exact ⟨rfl, by rw [hj0e]⟩
    · cases hacc
  · refine ⟨_, _, rfl, ?_, by norm_num⟩
    norm_num [chooseWorkStep, findNew, scanJobs, alookup, bestBeats, debitJobs,
      aupdate, popPerm, mX, ssX, permX, permY, TIME_COST_MS_GUESS]
  · refine ⟨_, _, rfl, ?_, by norm_num⟩
    norm_num [serverReadStep, consumeExtra, pulseOutcome, applyUpdate, isInitDone,
      alookup, aupdate, mR, ssR, permR, TIME_COST_MS_GUESS]

theorem C3_witness :
    ∃ job, alookup ssX.jobs 0 = some job ∧
      alookup ssXafter.jobs 1 = some ⟨JobState.failed, (2 : ℚ) - job.energy⟩ :=
  C3_unclamped_energy_subtraction.1 mX ssX mXafter ssXafter 0 ⟨7⟩ 1 ⟨.failed, 2⟩
    (by decide) rfl rfl (by decide)

/-- C5 (amended): while a `ConnectionJob`'s registry entry is absent, no
invocation of `choose_work` ever returns a work dispatch for that id; and any
invocation whose admission step finds nothing to admit and whose scan reaps
this id returns exactly one remove dispatch for it and deletes the
`ConnectionJob`. The removal need not happen on the very next invocation:
admission of a fresh registry job (or the reap of an earlier vanished job)
takes precedence and delays it. -/
theorem C5_remove_amended (m : MutableState) (ss : ServerState) (pid : PermuterId)
    (hnd : (ss.jobs.map Prod.fst).Nodup)
    (habs : alookup m.permuters pid = none) :
    (∀ fuel m2 ss2 w, chooseWork fuel m ss ≠ some (m2, ss2, pid, .work w)) ∧
    (findNew m.permuters ss.jobs = none →
      scanJobs m.permuters ss.minPriority ss.jobs none = .reap pid →
      ∀ fuel, chooseWork (fuel + 1) m ss =
          some (m, { ss with jobs := aremove ss.jobs pid }, pid, .remove) ∧
        alookup (aremove ss.jobs pid) pid = none) := by
  constructor
  · intro fuel m2 ss2 w
    exact chooseWork_no_work_absent fuel m ss pid habs m2 ss2 w
  · intro hf hs fuel
    have hstep : chooseWorkStep m ss =
        .done m { ss with jobs := aremove ss.jobs pid } pid .remove := by
      simp [chooseWorkStep, hf, hs]
    refine ⟨?_, alookup_aremove_self _ _ hnd⟩
    simp [chooseWork, hstep]

/-- C5 (counterexample): job 0's registry entry is gone, yet the next
invocation of `choose_work` does not emit a remove dispatch for job 0 — the
admission step finds the fresh registry permuter 1 first and returns an
assign dispatch for it, leaving job 0's `ConnectionJob` in place. -/
theorem C5_counterexample :
    alookup mC5.permuters 0 = none ∧
    alookup ssC5.jobs 0 = some ⟨.loaded, 0⟩ ∧
    chooseWork 1 mC5 ssC5 =
      some (mC5, ⟨0, [(0, ⟨.loaded, 0⟩), (1, ⟨.loading, 0⟩)]⟩, 1,
        .add "client2" "carol" ⟨[3], [4]⟩) := by
  refine ⟨rfl, rfl, ?_⟩
  rfl

theorem C5_witness :
    (∀ fuel m2 ss2 w, chooseWork fuel mReap ssReap ≠ some (m2, ss2, 0, .work w)) ∧
    (findNew mReap.permuters ssReap.jobs = none →
      scanJobs mReap.permuters ssReap.minPriority ssReap.jobs none = .reap 0 →
      ∀ fuel, chooseWork (fuel + 1) mReap ssReap =
          some (mReap, { ssReap with jobs := aremove ssReap.jobs 0 }, 0, .remove) ∧
        alookup (aremove ssReap.jobs 0) 0 = none) :=
  C5_remove_amended mReap ssReap 0 (by decide) rfl

/-- C7: when the selected candidate's queue turns out to be empty,
`choose_work` delivers a need-work notification to that permuter's result
sink, marks it stale, and retries immediately (wait flag `false`, no
suspension); from the resulting state no invocation returns a work dispatch
for that id (within the model nothing external clears staleness or refills
the queue). -/
theorem C7_empty_queue_goes_stale (m : MutableState) (ss : ServerState)
    (pid : PermuterId) (e : ℚ) (perm : Permuter)
    (hf : findNew m.permuters ss.jobs = none)
    (hs : scanJobs m.permuters ss.minPriority ss.jobs none = .best (some (pid, e)))
    (hl : alookup m.permuters pid = some perm)
    (hq : perm.workQueue = []) :
    chooseWorkStep m ss =
      .retry false { m with permuters := aupdate m.permuters pid needWorkPerm } ss ∧
    alookup (aupdate m.permuters pid needWorkPerm) pid =
      some { perm with results := perm.results ++ [.needWork], stale := true } ∧
    (∀ fuel m2 ss2 w,
      chooseWork fuel { m with permuters := aupdate m.permuters pid needWorkPerm } ss ≠
        some (m2, ss2, pid, .work w)) := by
  refine ⟨by simp [chooseWorkStep, hf, hs, hl, hq], ?_, ?_⟩
  · rw [alookup_aupdate_self, hl]
    rfl
  · intro fuel m2 ss2 w
    refine chooseWork_no_work_stale fuel _ ss pid (needWorkPerm perm) ?_ rfl m2 ss2 w
    show alookup (aupdate m.permuters pid needWorkPerm) pid = some (needWorkPerm perm)
    rw [alookup_aupdate_self, hl]
    rfl

theorem C7_witness :
    chooseWorkStep mE ssE =
      .retry false { mE with permuters := aupdate mE.permuters 0 needWorkPerm } ssE ∧
    alookup (aupdate mE.permuters 0 needWorkPerm) 0 =
      some { permE with results := permE.results ++ [.needWork], stale := true } ∧
    (∀ fuel m2 ss2 w,
      chooseWork fuel { mE with permuters := aupdate mE.permuters 0 needWorkPerm } ssE ≠
        some (m2, ss2, 0, .work w)) :=
  C7_empty_queue_goes_stale mE ssE 0 0 permE rfl (by decide) rfl rfl

/-- C4: for a job selected once by `choose_work` (energy debited by
cost-weight × the fixed estimate, then renormalized) whose worker then
reports one update with measured time cost `t` — with no pop of that job's
queue in between — the reader's correction (subtract cost-weight × estimate,
add cost-weight × t) leaves the job's energy at exactly
`energy_add * t`: the net effect of the full select→report cycle is
cost-weight × measured cost. -/
theorem C4_select_report_cycle (m : MutableState) (ss : ServerState)
    (m1 : MutableState) (ss1 : ServerState) (pid : PermuterId) (w : PermuterWork)
    (pc : Bool) (whoId : UserId) (whoName : String) (t : ℚ) (u u2 : ServerUpdate)
    (rest rest2 : List InFrame)
    (hnd : (ss.jobs.map Prod.fst).Nodup)
    (hsel : chooseWorkStep m ss = .done m1 ss1 pid (.work w))
    (hextra : consumeExtra u rest = some (u2, rest2)) :
    ∃ (perm : Permuter) (m2 : MutableState) (ss2 : ServerState),
      alookup m.permuters pid = some perm ∧
      serverReadStep pc whoId whoName m1 ss1 (.json (.update pid t u) :: rest) =
        pulseOutcome pc m2 ss2 rest2 (isInitDone u2) ∧
      alookup ss2.jobs pid = some ⟨applyUpdate u2 .loaded, perm.energyAdd * t⟩ := by
  obtain ⟨e, perm, ws, hf, hscan, hl, hwq, hm1, hss1⟩ :=
    chooseWorkStep_work_inv m ss m1 ss1 pid w hsel
  rcases scanJobs_best_from _ _ _ _ _ _ hscan with
    ⟨j0, hj0, hj0e, hj0s, p2, hp2, hp2s, hp2p⟩ | hacc
  · have hlj : alookup ss.jobs pid = some j0 := alookup_of_mem_nodup _ _ _ hnd hj0
    have hlk1 : alookup ss1.jobs pid =
        some ⟨JobState.loaded, e + perm.energyAdd * TIME_COST_MS_GUESS - e⟩ := by
      rw [hss1]
      rw [alookup_debitJobs_self, hlj]
      simp only [Option.map_some']
      congr 1
      rw [Job.mk.injEq]
      exact ⟨hj0s, by rw [hj0e]⟩
    have hlkm : alookup m1.permuters pid = some (popPerm perm) := by
      rw [hm1]
      show alookup (aupdate m.permuters pid popPerm) pid = some (popPerm perm)
      rw [alookup_aupdate_self, hl]
      rfl
    have hread : serverReadStep pc whoId whoName m1 ss1 (.json (.update pid t u) :: rest) =
        pulseOutcome pc
          { m1 with permuters := aupdate m1.permuters pid fun p =>
              { p with results := p.results ++ [.result whoId whoName u2] } }
          { ss1 with jobs := aupdate ss1.jobs pid fun jb =>
              { state := applyUpdate u2 jb.state,
                energy := jb.energy - (popPerm perm).energyAdd * TIME_COST_MS_GUESS
                  + (popPerm perm).energyAdd * t } }
          rest2 (isInitDone u2) := by
      simp only [serverReadStep, hextra, hlk1, hlkm]
    refine ⟨perm, _, _, hl, hread, ?_⟩
    rw [alookup_aupdate_self, hlk1]
    simp only [Option.map_some']
    congr 1
    rw [Job.mk.injEq]
    refine ⟨rfl, ?_⟩
    have hpp : (popPerm perm).energyAdd = perm.energyAdd := rfl
    rw [hpp]
    ring
  · cases hacc

theorem C4_witness :
    ∃ (perm : Permuter) (m2 : MutableState) (ss2 : ServerState),
      alookup mW.permuters 0 = some perm ∧
      serverReadStep false "w1" "worker" mWafter ssWafter
          [.json (.update 0 30 (.result false none))] =
        pulseOutcome false m2 ss2 [] (isInitDone (.result false none)) ∧
      alookup ss2.jobs 0 =
        some ⟨applyUpdate (.result false none) .loaded, perm.energyAdd * 30⟩ :=
  C4_select_report_cycle mW ssW mWafter ssWafter 0 ⟨42⟩ false "w1" "worker" 30
    (.result false none) (.result false none) [] [] (by decide) rfl rfl

/-- C8: an inbound update whose job id has no `ConnectionJob` on this
connection, or whose `ConnectionJob` exists but whose registry permuter has
vanished, is a silent no-op: the registry and connection state are left
untouched (no energy correction, no state transition, no forwarding), the
loop is not terminated by it, and the readiness-pulse step still runs. -/
theorem C8_stale_update_noop (pulseClosed : Bool) (whoId : UserId) (whoName : String)
    (m : MutableState) (ss : ServerState) (pid : PermuterId) (t : ℚ)
    (u u2 : ServerUpdate) (rest rest2 : List InFrame)
    (hextra : consumeExtra u rest = some (u2, rest2))
    (habs : alookup ss.jobs pid = none ∨
      (∃ job, alookup ss.jobs pid = some job ∧ alookup m.permuters pid = none)) :
    serverReadStep pulseClosed whoId whoName m ss (.json (.update pid t u) :: rest) =
      pulseOutcome pulseClosed m ss rest2 false := by
  rcases habs with h | ⟨job, hj, hp⟩
  · simp only [serverReadStep, hextra, h]
  · simp only [serverReadStep, hextra, hj, hp]

theorem C8_witness :
    serverReadStep false "w1" "worker" mR ssR [.json (.update 9 40 .initDone)] =
      pulseOutcome false mR ssR [] false :=
  C8_stale_update_noop false "w1" "worker" mR ssR 9 40 .initDone .initDone [] []
    rfl (Or.inl rfl)

theorem restOf_pulseOutcome (pc : Bool) (m : MutableState) (ss : ServerState)
    (rest : List InFrame) (ln : Bool) :
    (pulseOutcome pc m ss rest ln).restOf = some rest := by
  cases pc <;> rfl

/-- C10: for an inbound update of result kind with the has-source flag set,
the reader consumes exactly one additional binary frame before looking the
job up in any state: whatever the lookups yield, the remaining input after
the iteration is exactly the input after the structured frame and one
payload frame, keeping transport framing aligned. -/
theorem C10_result_frame_alignment (pc : Bool) (whoId : UserId) (whoName : String)
    (m : MutableState) (ss : ServerState) (pid : PermuterId) (t : ℚ)
    (cs : Option Frame) (f : InFrame) (rest : List InFrame) :
    (serverReadStep pc whoId whoName m ss
      (.json (.update pid t (.result true cs)) :: f :: rest)).restOf = some rest := by
  have hextra : consumeExtra (.result true cs) (f :: rest) =
      some (.result true (some (frameBytes f)), rest) := rfl
  simp only [serverReadStep, hextra]
  cases h1 : alookup ss.jobs pid with
  | none => simp [restOf_pulseOutcome]
  | some job =>
    cases h2 : alookup m.permuters pid with
    | none => simp [restOf_pulseOutcome]
    | some perm => simp [restOf_pulseOutcome]

/-- C9: the writer's first dispatch is sent without waiting for any pulse and
each further dispatch consumes exactly one readiness pulse, so a writer run
that ends because the pulse channel is exhausted (which is a successful
exit, not an error) has transmitted exactly `pulses + 1` dispatches. -/
theorem C9_writer_pacing (cwFuel fuel : Nat) (m : MutableState) (ss : ServerState)
    (pulses : Nat) (sends : List (PermuterId × ToSend)) (m2 : MutableState)
    (ss2 : ServerState)
    (h : serverWrite cwFuel fuel m ss pulses = some (sends, m2, ss2)) :
    sends.length = pulses + 1 := by
  induction fuel generalizing m ss pulses sends m2 ss2 with
  | zero => simp [serverWrite] at h
  | succ n ih =>
    cases pulses with
    | zero =>
      simp only [serverWrite] at h
      split at h
      · cases h
      · simp only [Option.some.injEq, Prod.mk.injEq] at h
        obtain ⟨rfl, -, -⟩ := h
        rfl
    | succ k =>
      simp only [serverWrite] at h
      split at h
      · cases h
      · rename_i m3 ss3 pid ts hcw
        split at h
        · cases h
        · rename_i l m4 ss4 hsw
          simp only [Option.some.injEq, Prod.mk.injEq] at h
          obtain ⟨rfl, -, -⟩ := h
          have := ih m3 ss3 k l m4 ss4 hsw
          simp [this]

theorem C9_witness :
    ∃ (sends : List (PermuterId × ToSend)) (m2 : MutableState) (ss2 : ServerState),
      serverWrite 1 2 mW ssW 1 = some (sends, m2, ss2) ∧ sends.length = 1 + 1 :=
  ⟨_, _, _, rfl, C9_writer_pacing 1 2 mW ssW 1 _ _ _ rfl⟩

theorem cleanupJob_servers (whoId whoName : String) (m : MutableState)
    (q : PermuterId) (j : Job) :
    (cleanupJob whoId whoName m (q, j)).servers = m.servers := by
  cases hs : j.state with
  | loaded => cases hlk : alookup m.permuters q <;> simp [cleanupJob, hs, hlk]
  | loading => simp [cleanupJob, hs]
  | failed => simp [cleanupJob, hs]

theorem cleanupJob_alookup_ne (whoId whoName : String) (m : MutableState)
    (q : PermuterId) (j : Job) (pid : PermuterId) (h : q ≠ pid) :
    alookup (cleanupJob whoId whoName m (q, j)).permuters pid = alookup m.permuters pid := by
  cases hs : j.state with
  | loaded =>
    cases hlk : alookup m.permuters q with
    | none => simp [cleanupJob, hs, hlk]
    | some p => simp [cleanupJob, hs, hlk, alookup_aupdate_ne _ _ _ _ h]
  | loading => simp [cleanupJob, hs]
  | failed => simp [cleanupJob, hs]

theorem foldl_cleanup_servers (whoId whoName : String) (jobs : List (PermuterId × Job))
    (m : MutableState) :
    (jobs.foldl (cleanupJob whoId whoName) m).servers = m.servers := by
  induction jobs generalizing m with
  | nil => rfl
  | cons pj rest ih =>
    obtain ⟨q, j⟩ := pj
    rw [List.foldl_cons, ih, cleanupJob_servers]

theorem foldl_cleanup_not_mem (whoId whoName : String) (jobs : List (PermuterId × Job))
    (m : MutableState) (pid : PermuterId) (h : pid ∉ jobs.map Prod.fst) :
    alookup (jobs.foldl (cleanupJob whoId whoName) m).permuters pid =
      alookup m.permuters pid := by
  induction jobs generalizing m with
  | nil => rfl
  | cons pj rest ih =>
    obtain ⟨q, j⟩ := pj
    simp only [List.map_cons, List.mem_cons] at h
    push_neg at h
    rw [List.foldl_cons, ih _ h.2,
      cleanupJob_alookup_ne _ _ _ _ _ _ (fun hh => h.1 hh.symm)]

theorem foldl_cleanup_mem (whoId whoName : String) (jobs : List (PermuterId × Job))
    (m : MutableState) (pid : PermuterId) (job : Job) (perm : Permuter)
    (hnd : (jobs.map Prod.fst).Nodup) (hmem : (pid, job) ∈ jobs)
    (hp : alookup m.permuters pid = some perm) :
    alookup (jobs.foldl (cleanupJob whoId whoName) m).permuters pid =
      some (if job.state = .loaded
        then { perm with results := perm.results ++ [.result whoId whoName .disconnect] }
        else perm) := by
  induction jobs generalizing m with
  | nil => cases hmem
  | cons pj rest ih =>
    obtain ⟨q, j⟩ := pj
    simp only [List.map_cons, List.nodup_cons] at hnd
    rcases List.mem_cons.mp hmem with hhead | htail
    · obtain ⟨rfl, rfl⟩ := Prod.mk.injEq .. ▸ hhead
      rw [List.foldl_cons, foldl_cleanup_not_mem _ _ _ _ _ hnd.1]
      by_cases hs : job.state = .loaded
      · rw [if_pos hs]
        simp [cleanupJob, hs, hp, alookup_aupdate_self]
      · rw [if_neg hs]
        cases hsj : job.state with
        | loaded => exact absurd hsj hs
        | loading => simp [cleanupJob, hsj, hp]
        | failed => simp [cleanupJob, hsj, hp]
    · have hq : q ≠ pid := by
        intro rfl2
        exact hnd.1 (by simpa using List.mem_map_of_mem Prod.fst (rfl2 ▸ htail))
      rw [List.foldl_cons]
      exact ih (cleanupJob whoId whoName m (q, j)) hnd.2 htail
        (by rw [cleanupJob_alookup_ne _ _ _ _ _ _ hq]; exact hp)

/-- C6: when the connection terminates, the supervisor's cleanup delivers
exactly one synthesized disconnect update tagged with this worker's identity
to the result sink of every `ConnectionJob` left in state Loaded (whose
registry entry still exists), delivers none for jobs in state Loading or
Failed — in particular a job whose worker already reported disconnect via
the protocol was moved to Failed by the reader (last conjunct) and so gets
no second disconnect from cleanup — and removes this worker's
`ConnectedServer` registration. -/
theorem C6_cleanup_disconnects (whoId whoName : String) (serverId : Nat)
    (jobs : List (PermuterId × Job)) (m : MutableState) (pid : PermuterId)
    (job : Job) (perm : Permuter)
    (hndj : (jobs.map Prod.fst).Nodup)
    (hnds : (m.servers.map Prod.fst).Nodup)
    (hmem : (pid, job) ∈ jobs)
    (hperm : alookup m.permuters pid = some perm) :
    (job.state = .loaded →
      alookup (serverCleanup whoId whoName serverId jobs m).permuters pid =
        some { perm with results := perm.results ++ [.result whoId whoName .disconnect] }) ∧
    (job.state ≠ .loaded →
      alookup (serverCleanup whoId whoName serverId jobs m).permuters pid = some perm) ∧
    alookup (serverCleanup whoId whoName serverId jobs m).servers serverId = none ∧
    (∀ (pc : Bool) (t : ℚ) (rest : List InFrame) (ss : ServerState) (job0 : Job),
      alookup ss.jobs pid = some job0 →
      ∃ (m2 : MutableState) (ss2 : ServerState),
        serverReadStep pc whoId whoName m ss (.json (.update pid t .disconnect) :: rest) =
          pulseOutcome pc m2 ss2 rest false ∧
        alookup ss2.jobs pid = some ⟨.failed,
          job0.energy - perm.energyAdd * TIME_COST_MS_GUESS + perm.energyAdd * t⟩) := by
  have hperms : (serverCleanup whoId whoName serverId jobs m).permuters =
      (jobs.foldl (cleanupJob whoId whoName) m).permuters := rfl
  have hfold := foldl_cleanup_mem whoId whoName jobs m pid job perm hndj hmem hperm
  refine ⟨?_, ?_, ?_, ?_⟩
  · intro hs
    rw [hperms, hfold, if_pos hs]
  · intro hs
    rw [hperms, hfold, if_neg hs]
  · have hsrv : (serverCleanup whoId whoName serverId jobs m).servers =
        aremove (jobs.foldl (cleanupJob whoId whoName) m).servers serverId := rfl
    rw [hsrv, foldl_cleanup_servers]
    exact alookup_aremove_self _ _ hnds
  · intro pc t rest ss job0 hj0
    have hextra : consumeExtra ServerUpdate.disconnect rest = some (.disconnect, rest) := rfl
    have hread : serverReadStep pc whoId whoName m ss
        (.json (.update pid t .disconnect) :: rest) =
        pulseOutcome pc
          { m with permuters := aupdate m.permuters pid fun p =>
              { p with results := p.results ++ [.result whoId whoName .disconnect] } }
          { ss with jobs := aupdate ss.jobs pid fun jb =>
              { state := applyUpdate .disconnect jb.state,
                energy := jb.energy - perm.energyAdd * TIME_COST_MS_GUESS
                  + perm.energyAdd * t } }
          rest false := by
      simp only [serverReadStep, hextra, hj0, hperm]
      rfl
    refine ⟨_, _, hread, ?_⟩
    rw [alookup_aupdate_self, hj0]
    rfl

theorem C6_witness :
    ((⟨.loaded, 0⟩ : Job).state = .loaded →
      alookup (serverCleanup "w1" "worker" 3 jobsL mL).permuters 0 =
        some { permL with results := permL.results ++ [.result "w1" "worker" .disconnect] }) ∧
    ((⟨.loaded, 0⟩ : Job).state ≠ .loaded →
      alookup (serverCleanup "w1" "worker" 3 jobsL mL).permuters 0 = some permL) ∧
    alookup (serverCleanup "w1" "worker" 3 jobsL mL).servers 3 = none ∧
    (∀ (pc : Bool) (t : ℚ) (rest : List InFrame) (ss : ServerState) (job0 : Job),
      alookup ss.jobs 0 = some job0 →
      ∃ (m2 : MutableState) (ss2 : ServerState),
        serverReadStep pc "w1" "worker" mL ss (.json (.update 0 t .disconnect) :: rest) =
          pulseOutcome pc m2 ss2 rest false ∧
        alookup ss2.jobs 0 = some ⟨.failed,
          job0.energy - permL.energyAdd * TIME_COST_MS_GUESS + permL.energyAdd * t⟩) :=
  C6_cleanup_disconnects "w1" "worker" 3 jobsL mL 0 ⟨.loaded, 0⟩ permL
    (by decide) (by decide) (by decide) rfl
